import Mathlib

/-!
Shallow embedding of the order-tracking app (src/app.py) and proofs about it.

Modelling conventions:
* The SQLite tables become lists of records inside a `DB` structure; SQL
  `WHERE` clauses become `List.filter`, `ORDER BY position` becomes a merge
  sort on the position field, `LIMIT 1` after a descending sort becomes
  picking a maximal element, `fetchone` becomes `List.find?`/`head?`.
* `uuid.uuid4()` values are modelled as caller-supplied identifier strings.
* Timestamps are `datetime.now().isoformat()` strings in the code; since all
  rows use the same ISO format, lexicographic string order agrees with
  chronological order, so timestamps are modelled as integers (seconds) and
  `ORDER BY timestamp DESC LIMIT 1` becomes taking the maximum.
* Python code that would raise an exception (`max()` of an empty sequence,
  `fetchone()[0]` on `None`, indexing an empty list, division by zero) is
  modelled with `Option`: `none` is the raised-exception outcome.
* Python numeric code is modelled with exact rationals; `round(x, 2)` is
  round-half-to-even at two decimal places (Python's rounding rule).
-/

/-- Row of the `stages` table: id TEXT PRIMARY KEY, name TEXT, position INTEGER. -/
structure Stage where
  id : String
  name : String
  position : Int
deriving DecidableEq, Repr

/-- Row of the `services` table: id, order_id, name, stage (a stage display
name, not a stage id), is_template, template_services. -/
structure Service where
  id : String
  orderId : String
  name : String
  stage : String
  isTemplate : Bool
  templateServices : String
deriving DecidableEq, Repr

/-- Row of the `orders` table (contact fields besides the business name are
irrelevant to the claims and are omitted). -/
structure Order where
  id : String
  userId : String
  businessName : String
  createdAt : Int
  archived : Bool
deriving DecidableEq, Repr

/-- Row of the `changes` table: id, order_id, user_id, description, timestamp. -/
structure Change where
  id : String
  orderId : String
  userId : String
  description : String
  timestamp : Int
deriving DecidableEq, Repr

/-- The persistent store: the tables of orders.db that the claims touch.
`servicesList` is the `services_list` catalog table, rows (id, name). -/
structure DB where
  orders : List Order
  services : List Service
  stages : List Stage
  changes : List Change
  servicesList : List (String × String)
deriving DecidableEq, Repr

/-- Maximum of a list of integers, `none` on the empty list: Python's
`max(seq)`, which raises ValueError on an empty sequence. -/
def listMax : List Int → Option Int
  | [] => none
  | x :: xs => some (xs.foldl max x)

/-- Values of the Python dict `{stage[1]: stage[2] for stage in stages}`:
for each name, only the last occurrence's position survives. -/
def dictVals : List Stage → List Int
  | [] => []
  | s :: rest =>
      if rest.any (fun t => t.name == s.name) then dictVals rest
      else s.position :: dictVals rest

/-- Lookup of the Python dict built by `{stage[1]: stage[2] for stage in
stages}`: the position stored under a name is the last one inserted. -/
def lookupPos (stages : List Stage) (n : String) : Option Int :=
  (stages.reverse.find? (fun s => s.name == n)).map (·.position)

/-- Round-half-to-even to the nearest integer (Python's `round` rule),
on exact rationals. -/
def roundHalfEven (q : ℚ) : ℤ :=
  let n := ⌊q⌋
  let f := q - n
  if f < 1/2 then n
  else if 1/2 < f then n + 1
  else if n % 2 = 0 then n else n + 1

/-- Python's `round(q, 2)` on exact rationals. -/
def pyRound2 (q : ℚ) : ℚ := (roundHalfEven (q * 100) : ℚ) / 100

/-- Comparison used by `ORDER BY position`. -/
def stageLE (a b : Stage) : Prop := a.position ≤ b.position

instance : DecidableRel stageLE := fun a b => Int.decLe a.position b.position

instance : IsTotal Stage stageLE := ⟨fun a b => Int.le_total a.position b.position⟩

instance : IsTrans Stage stageLE := ⟨fun _ _ _ h1 h2 => le_trans h1 h2⟩

/-- `get_stages()`: SELECT id, name, position FROM stages ORDER BY position. -/
def get_stages (db : DB) : List Stage :=
  db.stages.insertionSort stageLE

/-- `get_user_orders(user_id, is_admin, include_archived)`: three SQL shapes
  depending on the flags (src/app.py lines 117-128). -/
def get_user_orders (db : DB) (userId : String) (isAdmin includeArchived : Bool) :
    List Order :=
  if isAdmin && includeArchived then db.orders
  else if isAdmin then db.orders.filter (fun o => !o.archived)
  else db.orders.filter (fun o => o.userId == userId && !o.archived)

/-- `get_order_services(order_id)`: SELECT ... FROM services WHERE order_id = ?. -/
def get_order_services (db : DB) (orderId : String) : List Service :=
  db.services.filter (fun s => s.orderId == orderId)

/-- Row of maximal position among (stage-name, position) pairs: models
`ORDER BY st.position DESC LIMIT 1` followed by `fetchone`. -/
def maxByPos : List (String × Int) → Option (String × Int)
  | [] => none
  | r :: rs => some (rs.foldl (fun a b => if b.2 > a.2 then b else a) r)

/-- `get_order_stage(order_id)` (src/app.py lines 162-168). The SQL joins
`services s JOIN stages st ON s.stage = st.id` — it compares the service's
stage NAME with stage IDS — and on an empty result falls back to
`get_stages()[0][0]`, the lowest stage's ID (`none` models the IndexError
when the registry is empty). -/
def get_order_stage (db : DB) (orderId : String) : Option String :=
  let rows := (db.services.filter (fun s => s.orderId == orderId)).flatMap
      (fun s => (db.stages.filter (fun st => s.stage == st.id)).map
        (fun st => (s.stage, st.position)))
  match maxByPos rows with
  | some r => some r.1
  | none => (get_stages db).head?.map (·.id)

/-- The arithmetic tail of `get_order_progress`:
`round(total_position / len(services) / total_stages * 100, 2)`. -/
def progressValue (totalPosition len totalStages : Int) : ℚ :=
  pyRound2 ((totalPosition : ℚ) / (len : ℚ) / (totalStages : ℚ) * 100)

/-- `get_order_progress(order_id)` (src/app.py lines 170-183). Returns `none`
where Python raises: `max()` over the empty dict-values sequence, or division
by a zero maximum position. -/
def get_order_progress (db : DB) (orderId : String) : Option ℚ :=
  let services := get_order_services db orderId
  if services.isEmpty then some 0
  else
    let stages := get_stages db
    match listMax (dictVals stages) with
    | none => none
    | some totalStages =>
        if totalStages = 0 then none
        else
          let totalPosition : Int :=
            services.foldl (fun acc s => acc + ((lookupPos stages s.stage).getD 1)) 0
          some (progressValue totalPosition services.length totalStages)

/-- `get_days_since_last_change(order_id)` (src/app.py lines 237-247): the
most recent change timestamp for the order, floored whole days before `now`
(`timedelta.days` floors), and `None` when the order has no changes. -/
def get_days_since_last_change (db : DB) (now : Int) (orderId : String) :
    Option Int :=
  let ts := (db.changes.filter (fun c => c.orderId == orderId)).map (·.timestamp)
  match listMax ts with
  | none => none
  | some t => some (Int.fdiv (now - t) 86400)

/-- `log_change(order_id, user_id, description)` (src/app.py lines 229-235):
append one change row. It opens its own connection and commits on its own. -/
def log_change (db : DB) (changeId orderId userId description : String)
    (now : Int) : DB :=
  { db with changes := db.changes ++ [⟨changeId, orderId, userId, description, now⟩] }

/-- `archive_order(order_id, user_id)` (src/app.py lines 257-263): set the
archived flag and log one change. -/
def archive_order (db : DB) (changeId orderId userId : String) (now : Int) : DB :=
  let newOrders := db.orders.map
      (fun o => if o.id == orderId then { o with archived := true } else o)
  log_change { db with orders := newOrders } changeId orderId userId "Order archived" now

/-- `restore_order(order_id, user_id)` (src/app.py lines 265-271). -/
def restore_order (db : DB) (changeId orderId userId : String) (now : Int) : DB :=
  let newOrders := db.orders.map
      (fun o => if o.id == orderId then { o with archived := false } else o)
  log_change { db with orders := newOrders } changeId orderId userId "Order restored" now

/-- The add-stage form handler (src/app.py lines 601-611):
`position = max([s[2] for s in stages]) + 1 if stages else 1`, then INSERT.
No validation of the name is performed. -/
def add_stage (db : DB) (newId name : String) : DB :=
  let stages := get_stages db
  let position : Int :=
    match listMax (stages.map (·.position)) with
    | none => 1
    | some m => m + 1
  { db with stages := db.stages ++ [⟨newId, name, position⟩] }

/-- Row transformer of `UPDATE stages SET name = ? WHERE id = ?`. -/
def renameStageRow (stageId newName : String) (s : Stage) : Stage :=
  if s.id == stageId then { s with name := newName } else s

/-- Row transformer of `UPDATE services SET stage = ? WHERE stage = ?`. -/
def renameServiceRow (oldName newName : String) (s : Service) : Service :=
  if s.stage == oldName then { s with stage := newName } else s

/-- The rename-stage form handler (src/app.py lines 629-640): UPDATE the
stage's name by id, then UPDATE every service whose stage equals the old
name (taken from the `get_stages()` snapshot; `[0]` on no match raises
IndexError, modelled as `none`). No change entry is logged. -/
def rename_stage (db : DB) (stageId newName : String) : Option DB :=
  let stages := get_stages db
  match (stages.filter (fun s => s.id == stageId)).head? with
  | none => none
  | some old =>
      some { db with
        stages := db.stages.map (renameStageRow stageId newName),
        services := db.services.map (renameServiceRow old.name newName) }

/-- `add_service_to_order(order_id, user_id, service_id, template_id)`
(src/app.py lines 273-289): look up the catalog name (`fetchone()[0]` raises
on a miss), insert a service at stage `get_stages()[0][1]` — the NAME of the
lowest-position stage (IndexError on an empty registry) — then log one
change "Service NAME added". -/
def add_service_to_order (db : DB)
    (newServiceId changeId orderId userId serviceId : String)
    (templateId : Option String) (now : Int) : Option DB :=
  match db.servicesList.find? (fun p => p.1 == serviceId) with
  | none => none
  | some entry =>
      let serviceName := entry.2
      match templateId with
      | some tid =>
          match db.services.find? (fun s => s.id == tid) with
          | none => none
          | some tmpl =>
              match (get_stages db).head? with
              | none => none
              | some st0 =>
                  let row : Service :=
                    ⟨newServiceId, orderId, serviceName, st0.name, true,
                      tmpl.templateServices⟩
                  let db1 := { db with services := db.services ++ [row] }
                  some (log_change db1 changeId orderId userId
                    ("Service " ++ serviceName ++ " added") now)
      | none =>
          match (get_stages db).head? with
          | none => none
          | some st0 =>
              let row : Service :=
                ⟨newServiceId, orderId, serviceName, st0.name, false, ""⟩
              let db1 := { db with services := db.services ++ [row] }
              some (log_change db1 changeId orderId userId
                ("Service " ++ serviceName ++ " added") now)

/-- The create-order form handler (src/app.py lines 510-518): INSERT the
order with archived = 0, then log one change "Order created". -/
def create_order (db : DB) (orderId changeId userId businessName : String)
    (now : Int) : DB :=
  let db1 := { db with orders := db.orders ++ [⟨orderId, userId, businessName, now, false⟩] }
  log_change db1 changeId orderId userId "Order created" now

/-- The dashboard stage-change handler (src/app.py lines 475-484): set every
service of the order to the new stage, then log one change. -/
def change_order_stage (db : DB) (changeId orderId userId newStage : String)
    (now : Int) : DB :=
  let newServices := db.services.map
    (fun s => if s.orderId == orderId then { s with stage := newStage } else s)
  log_change { db with services := newServices } changeId orderId userId
    ("Order moved to " ++ newStage) now

/-- Run a sequence of transaction commits in order. -/
def runTxns (txns : List (DB → DB)) (db : DB) : DB :=
  txns.foldl (fun d f => f d) db

/-- The durable commit sequence of `archive_order` (src/app.py lines
257-263): the UPDATE runs uncommitted on one connection, then `log_change`
opens its OWN connection and commits the change row, then the first
connection commits the UPDATE. So the change entry becomes durable first,
in a separate transaction from the archived-flag mutation. -/
def archive_order_txns (changeId orderId userId : String) (now : Int) :
    List (DB → DB) :=
  [fun db => log_change db changeId orderId userId "Order archived" now,
   fun db =>
     let newOrders := db.orders.map
       (fun o => if o.id == orderId then { o with archived := true } else o)
     { db with orders := newOrders }]

/-- Concrete store with the seeded registry ("To Do"=1, "In Progress"=2,
"Done"=3), one order with three services, one change entry, and a one-entry
service catalog; used to evaluate the theorems at explicit inputs. -/
def dbSeed : DB :=
  ⟨[⟨"o1", "u1", "Acme", 0, false⟩],
   [⟨"sv1", "o1", "Research", "To Do", false, ""⟩,
    ⟨"sv2", "o1", "Design", "In Progress", false, ""⟩,
    ⟨"sv3", "o1", "Development", "Done", false, ""⟩],
   [⟨"st1", "To Do", 1⟩, ⟨"st2", "In Progress", 2⟩, ⟨"st3", "Done", 3⟩],
   [⟨"ch1", "o1", "u1", "Order created", 100000⟩],
   [("c1", "Research")]⟩

/-- Concrete store with an EMPTY stage registry and one service on order o1. -/
def dbNoStages : DB :=
  ⟨[⟨"o1", "u1", "Acme", 0, false⟩],
   [⟨"sv1", "o1", "Research", "To Do", false, ""⟩], [], [], []⟩

/-- Concrete store where the only service references stage name "B", which is
not in the registry, while the stage with id s2 is named "A". -/
def dbDangling : DB :=
  ⟨[⟨"o1", "u1", "Acme", 0, false⟩],
   [⟨"sv1", "o1", "Research", "B", false, ""⟩],
   [⟨"s1", "X", 1⟩, ⟨"s2", "A", 2⟩], [], []⟩

/-- The store `dbDangling` after renaming stage s2 from "A" to "B". -/
def dbDanglingRenamed : DB :=
  ⟨[⟨"o1", "u1", "Acme", 0, false⟩],
   [⟨"sv1", "o1", "Research", "B", false, ""⟩],
   [⟨"s1", "X", 1⟩, ⟨"s2", "B", 2⟩], [], []⟩

theorem foldl_max_shift (ys : List Int) : ∀ x y : Int,
    ys.foldl max (max x y) = max x (ys.foldl max y) := by
  induction ys with
  | nil => intro x y; rfl
  | cons z zs ih =>
      intro x y
      simp only [List.foldl_cons]
      rw [max_assoc, ih]

theorem listMax_cons (x : Int) (xs : List Int) :
    listMax (x :: xs) = some ((listMax xs).elim x (max x)) := by
  cases xs with
  | nil => rfl
  | cons y ys =>
      simp only [listMax, List.foldl_cons, Option.elim]
      rw [foldl_max_shift]

theorem listMax_eq_none_iff (l : List Int) : listMax l = none ↔ l = [] := by
  cases l <;> simp [listMax]

theorem listMax_mem {l : List Int} {m : Int} (h : listMax l = some m) : m ∈ l := by
  induction l generalizing m with
  | nil => simp [listMax] at h
  | cons x xs ih =>
      rw [listMax_cons] at h
      cases hx : listMax xs with
      | none =>
          rw [hx] at h; simp only [Option.elim, Option.some.injEq] at h
          subst h; exact List.mem_cons_self _ _
      | some m2 =>
          rw [hx] at h
          simp only [Option.elim, Option.some.injEq] at h
          rcases max_choice x m2 with hc | hc
          · subst h; rw [hc]; exact List.mem_cons_self x xs
          · subst h; rw [hc]; exact List.mem_cons_of_mem x (ih hx)

theorem le_listMax {l : List Int} {a m : Int} (ha : a ∈ l) (h : listMax l = some m) :
    a ≤ m := by
  induction l generalizing m with
  | nil => cases ha
  | cons x xs ih =>
      rw [listMax_cons] at h
      cases hx : listMax xs with
      | none =>
          rw [hx] at h; simp only [Option.elim, Option.some.injEq] at h
          have hxs : xs = [] := (listMax_eq_none_iff xs).1 hx
          subst hxs
          rcases List.mem_cons.1 ha with rfl | hmem
          · exact le_of_eq h
          · cases hmem
      | some m2 =>
          rw [hx] at h; simp only [Option.elim, Option.some.injEq] at h
          subst h
          rcases List.mem_cons.1 ha with rfl | hmem
          · exact le_max_left _ _
          · exact le_trans (ih hmem hx) (le_max_right _ _)

theorem listMax_eq_some_iff (l : List Int) (m : Int) :
    listMax l = some m ↔ m ∈ l ∧ ∀ a ∈ l, a ≤ m := by
  constructor
  · intro h
    exact ⟨listMax_mem h, fun a ha => le_listMax ha h⟩
  · rintro ⟨hm, hub⟩
    cases hx : listMax l with
    | none =>
        rw [listMax_eq_none_iff] at hx
        subst hx; cases hm
    | some m2 =>
        have h1 : m2 ≤ m := hub m2 (listMax_mem hx)
        have h2 : m ≤ m2 := le_listMax hm hx
        rw [le_antisymm h1 h2]

theorem listMax_perm {l l2 : List Int} (h : l.Perm l2) : listMax l = listMax l2 := by
  cases hx : listMax l with
  | none =>
      rw [listMax_eq_none_iff] at hx
      subst hx
      rw [(listMax_eq_none_iff l2).2 h.nil_eq.symm]
  | some m =>
      rw [listMax_eq_some_iff] at hx
      exact ((listMax_eq_some_iff l2 m).2
        ⟨h.mem_iff.1 hx.1, fun a ha => hx.2 a (h.mem_iff.2 ha)⟩).symm

theorem dictVals_subset {l : List Stage} {p : Int} (h : p ∈ dictVals l) :
    p ∈ l.map (·.position) := by
  induction l with
  | nil => cases h
  | cons s rest ih =>
      by_cases hs : rest.any (fun t => t.name == s.name)
      · simp only [dictVals, if_pos hs] at h
        exact List.mem_cons_of_mem _ (ih h)
      · simp only [dictVals, if_neg hs] at h
        rcases List.mem_cons.1 h with rfl | hmem
        · exact List.mem_cons_self _ _
        · exact List.mem_cons_of_mem _ (ih hmem)

theorem listMax_dictVals_sorted {l : List Stage} (hsort : List.Sorted stageLE l) :
    listMax (dictVals l) = listMax (l.map (·.position)) := by
  induction l with
  | nil => rfl
  | cons s rest ih =>
      have hrel : ∀ t ∈ rest, stageLE s t := (List.sorted_cons.1 hsort).1
      have hrest : List.Sorted stageLE rest := (List.sorted_cons.1 hsort).2
      by_cases hs : rest.any (fun t => t.name == s.name)
      · obtain ⟨t, ht, hname⟩ := List.any_eq_true.1 hs
        have hne : rest ≠ [] := by intro h; subst h; cases ht
        obtain ⟨m, hm⟩ : ∃ m, listMax (rest.map (·.position)) = some m := by
          cases hx : listMax (rest.map (·.position)) with
          | none => exact absurd (List.map_eq_nil_iff.1 ((listMax_eq_none_iff _).1 hx)) hne
          | some m => exact ⟨m, rfl⟩
        have hle : s.position ≤ m :=
          le_trans (hrel t ht) (le_listMax (List.mem_map_of_mem _ ht) hm)
        simp only [dictVals, if_pos hs, List.map_cons, listMax_cons, hm, ih hrest,
          Option.elim]
        rw [max_eq_right hle]
      · simp only [dictVals, if_neg hs, List.map_cons, listMax_cons, ih hrest]

theorem listMax_dictVals_get_stages (db : DB) :
    listMax (dictVals (get_stages db)) = listMax (db.stages.map (·.position)) := by
  have h1 := listMax_dictVals_sorted (List.sorted_insertionSort stageLE db.stages)
  have h2 := listMax_perm ((List.perm_insertionSort stageLE db.stages).map (·.position))
  simp only [get_stages]
  exact h1.trans h2

theorem lookupPos_mem {l : List Stage} {n : String} {p : Int}
    (h : lookupPos l n = some p) : ∃ s ∈ l, s.name = n ∧ s.position = p := by
  simp only [lookupPos, Option.map_eq_some'] at h
  obtain ⟨s, hfind, hpos⟩ := h
  refine ⟨s, List.mem_reverse.1 (List.mem_of_find?_eq_some hfind), ?_, hpos⟩
  have := List.find?_some hfind
  exact eq_of_beq this

theorem lookupPos_eq_none_iff (l : List Stage) (n : String) :
    lookupPos l n = none ↔ ∀ s ∈ l, s.name ≠ n := by
  simp only [lookupPos, Option.map_eq_none', List.find?_eq_none, List.mem_reverse]
  constructor
  · intro h s hs
    simpa using h s hs
  · intro h s hs
    simpa using h s hs

theorem lookupPos_nodup {l : List Stage} {s : Stage} {n : String}
    (hnd : (l.map (·.name)).Nodup) (hs : s ∈ l) (hn : s.name = n) :
    lookupPos l n = some s.position := by
  have hrev : (l.reverse.map (·.name)).Nodup := by
    rw [List.map_reverse]; exact List.nodup_reverse.2 hnd
  have hsome : (l.reverse.find? (fun t => t.name == n)).isSome := by
    rw [List.find?_isSome]
    exact ⟨s, List.mem_reverse.2 hs, by simp [hn]⟩
  obtain ⟨t, ht⟩ := Option.isSome_iff_exists.1 hsome
  have htmem : t ∈ l.reverse := List.mem_of_find?_eq_some ht
  have htname : t.name = n := by
    have hp := List.find?_some ht
    simpa using hp
  have hts : t = s :=
    List.inj_on_of_nodup_map hrev htmem (List.mem_reverse.2 hs) (htname.trans hn.symm)
  simp only [lookupPos, ht]
  rw [hts]
  rfl

theorem foldl_add_eq_sum {α : Type} (f : α → Int) :
    ∀ (l : List α) (init : Int),
      l.foldl (fun acc s => acc + f s) init = init + (l.map f).sum := by
  intro l
  induction l with
  | nil => intro init; simp
  | cons x xs ih =>
      intro init
      simp only [List.foldl_cons, List.map_cons, List.sum_cons, ih]
      ring

theorem roundHalfEven_nonneg {q : ℚ} (h : 0 ≤ q) : 0 ≤ roundHalfEven q := by
  have hfl : 0 ≤ ⌊q⌋ := Int.floor_nonneg.2 h
  simp only [roundHalfEven]
  split
  · exact hfl
  · split
    · omega
    · split
      · exact hfl
      · omega

theorem roundHalfEven_le {q : ℚ} {B : ℤ} (h : q ≤ (B : ℚ)) : roundHalfEven q ≤ B := by
  have hfl : ⌊q⌋ ≤ B := by
    have h2 := Int.floor_le_floor h
    rwa [Int.floor_intCast] at h2
  have hstep : ¬(q - (⌊q⌋ : ℚ) < 1/2) → ⌊q⌋ + 1 ≤ B := by
    intro hge
    push_neg at hge
    have hlt : ((⌊q⌋ : ℤ) : ℚ) < (B : ℚ) := by linarith
    have := Int.cast_lt.1 hlt
    omega
  simp only [roundHalfEven]
  split
  · exact hfl
  · next h1 =>
      split
      · exact hstep h1
      · split
        · exact hfl
        · exact hstep h1

theorem pyRound2_nonneg {q : ℚ} (h : 0 ≤ q) : 0 ≤ pyRound2 q := by
  have h1 : 0 ≤ roundHalfEven (q * 100) := roundHalfEven_nonneg (by linarith)
  have h2 : (0 : ℚ) ≤ ((roundHalfEven (q * 100) : ℤ) : ℚ) := by exact_mod_cast h1
  simp only [pyRound2]
  positivity

theorem pyRound2_le_100 {q : ℚ} (h : q ≤ 100) : pyRound2 q ≤ 100 := by
  have h1 : roundHalfEven (q * 100) ≤ 10000 := by
    apply roundHalfEven_le
    push_cast
    linarith
  have h2 : ((roundHalfEven (q * 100) : ℤ) : ℚ) ≤ 10000 := by exact_mod_cast h1
  simp only [pyRound2]
  linarith

theorem sorted_head_min {l : List Stage} {s0 : Stage}
    (hsort : List.Sorted stageLE l) (hh : l.head? = some s0) :
    ∀ t ∈ l, s0.position ≤ t.position := by
  cases l with
  | nil => cases hh
  | cons x xs =>
      obtain rfl : x = s0 := by simpa using hh
      intro t ht
      rcases List.mem_cons.1 ht with rfl | hmem
      · exact le_refl _
      · exact (List.sorted_cons.1 hsort).1 t hmem

theorem fdiv_86400_eq_floor (a : Int) : Int.fdiv a 86400 = ⌊(a : ℚ) / 86400⌋ := by
  rw [Int.fdiv_eq_ediv a (by norm_num)]
  rw [show ((86400 : ℚ)) = ((86400 : ℕ) : ℚ) by norm_num]
  rw [Rat.floor_intCast_div_natCast]
  norm_num

/-- C10: a non-admin caller lists exactly their own orders with archived
flag 0, for either value of include_archived; the include_archived argument
widens the listing (to all orders, archived included) only for an admin. -/
theorem C10_get_user_orders_scope (db : DB) (userId : String) :
    (∀ includeArchived : Bool, ∀ o : Order,
        o ∈ get_user_orders db userId false includeArchived ↔
          o ∈ db.orders ∧ o.userId = userId ∧ o.archived = false)
    ∧ (∀ o : Order, o ∈ get_user_orders db userId true false ↔
          o ∈ db.orders ∧ o.archived = false)
    ∧ (∀ o : Order, o ∈ get_user_orders db userId true true ↔ o ∈ db.orders) := by
  refine ⟨fun inc o => ?_, fun o => ?_, fun o => ?_⟩
  · simp [get_user_orders, List.mem_filter, Bool.and_eq_true, beq_iff_eq,
      Bool.not_eq_true', and_assoc]
  · simp [get_user_orders, List.mem_filter, Bool.not_eq_true']
  · simp [get_user_orders]

/-- C5: for an order with change entries, staleness is the floor of the
number of whole days between now and the most recent change's timestamp;
an order with no change entries reports none, a value distinct from some 0. -/
theorem C5_days_since_last_change (db : DB) (now : Int) (orderId : String) :
    (db.changes.filter (fun c => c.orderId == orderId) = [] →
        get_days_since_last_change db now orderId = none
        ∧ get_days_since_last_change db now orderId ≠ some 0)
    ∧ (∀ t : Int,
        listMax ((db.changes.filter (fun c => c.orderId == orderId)).map (·.timestamp))
          = some t →
        (t ∈ (db.changes.filter (fun c => c.orderId == orderId)).map (·.timestamp)
          ∧ ∀ u ∈ (db.changes.filter (fun c => c.orderId == orderId)).map (·.timestamp),
              u ≤ t)
        ∧ get_days_since_last_change db now orderId
            = some ⌊((now - t : Int) : ℚ) / 86400⌋) := by
  constructor
  · intro h
    simp [get_days_since_last_change, h, listMax]
  · intro t ht
    refine ⟨⟨listMax_mem ht, fun u hu => le_listMax hu ht⟩, ?_⟩
    simp only [get_days_since_last_change, ht]
    rw [fdiv_86400_eq_floor]

/-- C5 witness: at the concrete store, order o1 has one change at timestamp
100000, and staleness at now = 300000 is floor(200000/86400) = 2 days. -/
theorem C5_days_since_last_change_witness :
    get_days_since_last_change dbSeed 300000 "o1" = some ⌊((300000 - 100000 : Int) : ℚ) / 86400⌋
    ∧ get_days_since_last_change dbSeed 300000 "oX" = none := by
  have h := C5_days_since_last_change dbSeed 300000 "o1"
  have h2 := C5_days_since_last_change dbSeed 300000 "oX"
  exact ⟨(h.2 100000 (by decide)).2, (h2.1 (by decide)).1⟩

/-- C6 counterexample: with a service present and an empty stage registry,
get_order_progress raises (modelled none) instead of returning a value
computed with maxPosition = 1 as the claim states. -/
theorem C6_counterexample :
    dbNoStages.stages = []
    ∧ get_order_services dbNoStages "o1" ≠ []
    ∧ get_order_progress dbNoStages "o1" = none
    ∧ ∀ q : ℚ, get_order_progress dbNoStages "o1" ≠ some q := by
  refine ⟨rfl, by decide, rfl, fun q => by simp [show get_order_progress dbNoStages "o1" = none from rfl]⟩

/-- C6 amended: with an empty stage registry, computing progress for an order
with at least one service fails (Python ValueError from max() on an empty
sequence, modelled none); only an order with zero services returns a value,
namely 0. -/
theorem C6_empty_registry_error (db : DB) (orderId : String) (h : db.stages = []) :
    (get_order_services db orderId ≠ [] → get_order_progress db orderId = none)
    ∧ (get_order_services db orderId = [] → get_order_progress db orderId = some 0) := by
  constructor
  · intro hne
    have hs : get_stages db = [] := by
      simp [get_stages, h, List.insertionSort]
    simp [get_order_progress, hs, dictVals, listMax, List.isEmpty_iff, hne]
  · intro he
    simp [get_order_progress, he]

/-- C6 amended witness: evaluated at the concrete empty-registry store. -/
theorem C6_empty_registry_error_witness :
    get_order_progress dbNoStages "o1" = none
    ∧ get_order_progress dbNoStages "o2" = some 0 := by
  have h := C6_empty_registry_error dbNoStages "o1" rfl
  have h2 := C6_empty_registry_error dbNoStages "o2" rfl
  exact ⟨h.1 (by decide), h2.2 (by decide)⟩

/-- C8 counterexample: addStage with an empty name succeeds on a concrete
store — a stage row with empty name and position 4 is appended to the
registry, contradicting "fails with ValidationError and no stage is added". -/
theorem C8_counterexample :
    (add_stage dbSeed "st9" "").stages = dbSeed.stages ++ [⟨"st9", "", 4⟩]
    ∧ (add_stage dbSeed "st9" "").stages.length = dbSeed.stages.length + 1 := by
  exact ⟨by decide, by decide⟩

/-- C8 amended: addStage performs no validation of the name: called with the
empty name it succeeds like any other call, appending a stage named "" at
position max(existing positions) + 1, or 1 if the registry is empty. -/
theorem C8_empty_name_no_validation (db : DB) (newId : String) :
    ∃ p : Int, (add_stage db newId "").stages = db.stages ++ [⟨newId, "", p⟩]
      ∧ (db.stages = [] → p = 1)
      ∧ (∀ m, listMax (db.stages.map (·.position)) = some m → p = m + 1) := by
  have hperm : listMax ((get_stages db).map (·.position))
      = listMax (db.stages.map (·.position)) :=
    listMax_perm ((List.perm_insertionSort stageLE db.stages).map (·.position))
  refine ⟨_, rfl, ?_, ?_⟩
  · intro h
    have hs : get_stages db = [] := by
      simp [get_stages, h, List.insertionSort]
    simp [hs, listMax]
  · intro m hm
    rw [← hperm] at hm
    simp [hm]

/-- C8 amended witness. -/
theorem C8_empty_name_no_validation_witness :
    ∃ p : Int, (add_stage dbSeed "st9" "").stages = dbSeed.stages ++ [⟨"st9", "", p⟩]
      ∧ p = 4 := by
  obtain ⟨p, h1, -, h3⟩ := C8_empty_name_no_validation dbSeed "st9"
  exact ⟨p, h1, h3 3 (by decide)⟩

/-- C2: the SQL join in get_order_stage compares each service's stage NAME
with the stage IDS of the registry, so it never matches; at this store the
only order's most advanced service sits at stage "Done" (position 3,
maximal), yet the function returns "st1" — the ID, not the name, of the
lowest-position stage — so the reported value is neither the maximal
service's stage name nor any stage name at all. -/
theorem C2_current_stage_bug :
    get_order_stage dbSeed "o1" = some "st1"
    ∧ (∃ s ∈ dbSeed.services, s.orderId = "o1" ∧ s.stage = "Done"
        ∧ lookupPos (get_stages dbSeed) "Done" = some 3
        ∧ ∀ u ∈ dbSeed.services, u.orderId = "o1" →
            (lookupPos (get_stages dbSeed) u.stage).getD 1 ≤ 3)
    ∧ (∀ st ∈ dbSeed.stages, st.name ≠ "st1") := by
  decide

/-- C7: addStage assigns the new stage position max(existing positions) + 1,
or 1 if no stages exist, and a subsequent listStages() is ascending by
position and contains an entry with the given name and that position. -/
theorem C7_add_stage_roundtrip (db : DB) (newId name : String) :
    List.Pairwise (fun a b : Stage => a.position ≤ b.position)
        (get_stages (add_stage db newId name))
    ∧ (db.stages = [] →
        ∃ s ∈ get_stages (add_stage db newId name), s.name = name ∧ s.position = 1)
    ∧ (∀ m, listMax (db.stages.map (·.position)) = some m →
        ∃ s ∈ get_stages (add_stage db newId name), s.name = name ∧ s.position = m + 1) := by
  have hperm : listMax ((get_stages db).map (·.position))
      = listMax (db.stages.map (·.position)) :=
    listMax_perm ((List.perm_insertionSort stageLE db.stages).map (·.position))
  have hsorted : List.Sorted stageLE (get_stages (add_stage db newId name)) :=
    List.sorted_insertionSort stageLE _
  refine ⟨hsorted, ?_, ?_⟩
  · intro h
    have hs : get_stages db = [] := by
      simp [get_stages, h, List.insertionSort]
    have hpos : add_stage db newId name
        = { db with stages := db.stages ++ [⟨newId, name, 1⟩] } := by
      simp [add_stage, hs, listMax]
    refine ⟨⟨newId, name, 1⟩, ?_, rfl, rfl⟩
    rw [hpos]
    exact (List.perm_insertionSort stageLE _).mem_iff.2
      (List.mem_append_right _ (List.mem_singleton.2 rfl))
  · intro m hm
    rw [← hperm] at hm
    have hpos : add_stage db newId name
        = { db with stages := db.stages ++ [⟨newId, name, m + 1⟩] } := by
      simp [add_stage, hm]
    refine ⟨⟨newId, name, m + 1⟩, ?_, rfl, rfl⟩
    rw [hpos]
    exact (List.perm_insertionSort stageLE _).mem_iff.2
      (List.mem_append_right _ (List.mem_singleton.2 rfl))

/-- C7 witness: adding "Review" to the seeded registry (max position 3)
places it at position 4 and listStages() contains it. -/
theorem C7_add_stage_roundtrip_witness :
    ∃ s ∈ get_stages (add_stage dbSeed "st9" "Review"),
      s.name = "Review" ∧ s.position = 4 := by
  obtain ⟨-, -, h3⟩ := C7_add_stage_roundtrip dbSeed "st9" "Review"
  exact h3 3 (by decide)

/-- C9: every successful service addition inserts the new service at the
NAME of a minimal-position stage of the registry (get_stages()[0][1]) and
appends exactly one change entry "Service NAME added" for the order. -/
theorem C9_add_service_initial_stage (db : DB)
    (newServiceId changeId orderId userId serviceId : String)
    (templateId : Option String) (now : Int) (db2 : DB)
    (h : add_service_to_order db newServiceId changeId orderId userId serviceId
          templateId now = some db2) :
    ∃ st0 entry tsv,
      (get_stages db).head? = some st0
      ∧ (∀ t ∈ db.stages, st0.position ≤ t.position)
      ∧ db.servicesList.find? (fun p => p.1 == serviceId) = some entry
      ∧ db2.services = db.services
          ++ [⟨newServiceId, orderId, entry.2, st0.name, templateId.isSome, tsv⟩]
      ∧ db2.changes = db.changes
          ++ [⟨changeId, orderId, userId, "Service " ++ entry.2 ++ " added", now⟩] := by
  have hmin : ∀ st0, (get_stages db).head? = some st0 →
      ∀ t ∈ db.stages, st0.position ≤ t.position := by
    intro st0 hh t ht
    exact sorted_head_min (List.sorted_insertionSort stageLE db.stages) hh t
      ((List.perm_insertionSort stageLE db.stages).mem_iff.2 ht)
  cases hfind : db.servicesList.find? (fun p => p.1 == serviceId) with
  | none => simp [add_service_to_order, hfind] at h
  | some entry =>
      cases templateId with
      | some tid =>
          cases htmpl : db.services.find? (fun s => s.id == tid) with
          | none => simp [add_service_to_order, hfind, htmpl] at h
          | some tmpl =>
              cases hst : (get_stages db).head? with
              | none => simp [add_service_to_order, hfind, htmpl, hst] at h
              | some st0 =>
                  simp only [add_service_to_order, hfind, htmpl, hst,
                    Option.some.injEq] at h
                  subst h
                  exact ⟨st0, entry, tmpl.templateServices, rfl, hmin st0 hst,
                    rfl, rfl, rfl⟩
      | none =>
          cases hst : (get_stages db).head? with
          | none => simp [add_service_to_order, hfind, hst] at h
          | some st0 =>
              simp only [add_service_to_order, hfind, hst,
                Option.some.injEq] at h
              subst h
              exact ⟨st0, entry, "", rfl, hmin st0 hst, rfl, rfl, rfl⟩

/-- C9 witness: a concrete successful addition on the seeded store. -/
theorem C9_add_service_initial_stage_witness :
    ∃ st0 entry tsv,
      (get_stages dbSeed).head? = some st0
      ∧ (∀ t ∈ dbSeed.stages, st0.position ≤ t.position)
      ∧ dbSeed.servicesList.find? (fun p => p.1 == "c1") = some entry
      ∧ ∃ db2, add_service_to_order dbSeed "sv9" "ch9" "o1" "u1" "c1" none 42 = some db2
          ∧ db2.services = dbSeed.services
              ++ [⟨"sv9", "o1", entry.2, st0.name, (none : Option String).isSome, tsv⟩]
          ∧ db2.changes = dbSeed.changes
              ++ [⟨"ch9", "o1", "u1", "Service " ++ entry.2 ++ " added", 42⟩] := by
  obtain ⟨st0, entry, tsv, h1, h2, h3, h4, h5⟩ :=
    C9_add_service_initial_stage dbSeed "sv9" "ch9" "o1" "u1" "c1" none 42 _ rfl
  exact ⟨st0, entry, tsv, h1, h2, h3, _, rfl, h4, h5⟩

theorem add_service_to_order_changes (db : DB)
    (sid cid oid uid svcId : String) (tmpl : Option String) (now : Int) (db2 : DB)
    (h : add_service_to_order db sid cid oid uid svcId tmpl now = some db2) :
    ∃ d, db2.changes = db.changes ++ [⟨cid, oid, uid, d, now⟩] := by
  cases hfind : db.servicesList.find? (fun p => p.1 == svcId) with
  | none => simp [add_service_to_order, hfind] at h
  | some entry =>
      cases tmpl with
      | some tid =>
          cases htmpl : db.services.find? (fun s => s.id == tid) with
          | none => simp [add_service_to_order, hfind, htmpl] at h
          | some tmplRow =>
              cases hst : (get_stages db).head? with
              | none => simp [add_service_to_order, hfind, htmpl, hst] at h
              | some st0 =>
                  simp only [add_service_to_order, hfind, htmpl, hst,
                    Option.some.injEq] at h
                  subst h
                  exact ⟨"Service " ++ entry.2 ++ " added", rfl⟩
      | none =>
          cases hst : (get_stages db).head? with
          | none => simp [add_service_to_order, hfind, hst] at h
          | some st0 =>
              simp only [add_service_to_order, hfind, hst,
                Option.some.injEq] at h
              subst h
              exact ⟨"Service " ++ entry.2 ++ " added", rfl⟩

/-- C4 counterexample: (a) the rename-stage handler performs its mutation and
logs NO change entry, refuting "exactly one Change entry is appended"; (b) in
archive_order the change row is committed by log_change on its own connection
before the archived-flag UPDATE commits, so the state after the first commit
alone — reachable if the second commit fails — already records "Order
archived" in the change log while the order is still unarchived. -/
theorem C4_counterexample :
    ((rename_stage dbSeed "st1" "Backlog").map (fun d => d.changes.length)
        = some dbSeed.changes.length
      ∧ dbSeed.changes.length ≠ dbSeed.changes.length + 1)
    ∧ (let mid := runTxns ((archive_order_txns "ch2" "o1" "u1" 7).take 1) dbSeed
       (∃ c ∈ mid.changes, c.description = "Order archived" ∧ c.orderId = "o1")
       ∧ ∀ o ∈ mid.orders, o.id = "o1" → o.archived = false) := by
  refine ⟨⟨by decide, by decide⟩, ⟨?_, ?_⟩⟩
  · exact ⟨⟨"ch2", "o1", "u1", "Order archived", 7⟩, by decide, rfl, rfl⟩
  · decide

/-- C4 amended: create order, add service, change stage, archive and restore
each append exactly one change entry, but rename stage appends none; and the
change entry is not committed in the same transaction as the primary
mutation: log_change commits it first on its own connection, so running only
the first commit of archive_order yields a state whose change log already
records "Order archived" while the orders table is unchanged. -/
theorem C4_change_log_per_mutation (db : DB)
    (cid oid uid bn ns sid svcId newName stageId : String)
    (tmpl : Option String) (now : Int) :
    (create_order db oid cid uid bn now).changes
        = db.changes ++ [⟨cid, oid, uid, "Order created", now⟩]
    ∧ (archive_order db cid oid uid now).changes
        = db.changes ++ [⟨cid, oid, uid, "Order archived", now⟩]
    ∧ (restore_order db cid oid uid now).changes
        = db.changes ++ [⟨cid, oid, uid, "Order restored", now⟩]
    ∧ (change_order_stage db cid oid uid ns now).changes
        = db.changes ++ [⟨cid, oid, uid, "Order moved to " ++ ns, now⟩]
    ∧ (∀ db2, add_service_to_order db sid cid oid uid svcId tmpl now = some db2 →
        ∃ d, db2.changes = db.changes ++ [⟨cid, oid, uid, d, now⟩])
    ∧ (∀ db2, rename_stage db stageId newName = some db2 → db2.changes = db.changes)
    ∧ runTxns (archive_order_txns cid oid uid now) db = archive_order db cid oid uid now
    ∧ (let mid := runTxns ((archive_order_txns cid oid uid now).take 1) db
       mid.orders = db.orders
       ∧ mid.changes = db.changes ++ [⟨cid, oid, uid, "Order archived", now⟩]) := by
  refine ⟨rfl, rfl, rfl, rfl, ?_, ?_, rfl, rfl, rfl⟩
  · intro db2 h
    exact add_service_to_order_changes db sid cid oid uid svcId tmpl now db2 h
  · intro db2 h
    cases hh : ((get_stages db).filter (fun s => s.id == stageId)).head? with
    | none => simp [rename_stage, hh] at h
    | some old =>
        simp only [rename_stage, hh, Option.some.injEq] at h
        subst h
        rfl

/-- C4 amended witness: the per-operation change-log behavior evaluated at a
concrete store — archive appends exactly one entry, adding a service appends
exactly one entry, renaming a stage appends none. -/
theorem C4_change_log_per_mutation_witness :
    (archive_order dbSeed "ch9" "o1" "u1" 42).changes
        = dbSeed.changes ++ [⟨"ch9", "o1", "u1", "Order archived", 42⟩]
    ∧ (∃ db2, add_service_to_order dbSeed "sv9" "ch9" "o1" "u1" "c1" none 42 = some db2
        ∧ ∃ d, db2.changes = dbSeed.changes ++ [⟨"ch9", "o1", "u1", d, 42⟩])
    ∧ (∃ db3, rename_stage dbSeed "st1" "Backlog" = some db3
        ∧ db3.changes = dbSeed.changes) := by
  have h := C4_change_log_per_mutation dbSeed "ch9" "o1" "u1" "B" "Done" "sv9" "c1"
    "Backlog" "st1" none 42
  exact ⟨h.2.1, ⟨_, rfl, h.2.2.2.2.1 _ rfl⟩, ⟨_, rfl, h.2.2.2.2.2.1 _ rfl⟩⟩

theorem get_order_progress_empty {db : DB} {orderId : String}
    (h : get_order_services db orderId = []) :
    get_order_progress db orderId = some 0 := by
  simp [get_order_progress, h]

theorem get_order_progress_eq (db : DB) (orderId : String) {M : Int}
    (hne : get_order_services db orderId ≠ [])
    (hMdv : listMax (dictVals (get_stages db)) = some M) (hM0 : M ≠ 0) :
    get_order_progress db orderId
      = some (progressValue
          (((get_order_services db orderId).map
            (fun s => (lookupPos (get_stages db) s.stage).getD 1)).sum)
          (get_order_services db orderId).length M) := by
  have hie : (get_order_services db orderId).isEmpty = false := by
    cases h : (get_order_services db orderId).isEmpty
    · rfl
    · exact absurd (List.isEmpty_iff.1 h) hne
  simp only [get_order_progress, hie, Bool.false_eq_true, if_false, hMdv, if_neg hM0]
  rw [foldl_add_eq_sum]
  simp

/-- C1: with a 1-based registry whose maximum position is M (so M > 0), an
order with zero services has progress exactly 0; otherwise the computed
progress equals round(100 * mean(resolved positions) / M, 2), where each
service's stage name resolves to its registry position and an absent name
resolves to 1, and the value always lies between 0 and 100. -/
theorem C1_order_progress (db : DB) (orderId : String) (M : Int)
    (hpos : ∀ s ∈ db.stages, 1 ≤ s.position)
    (hM : listMax (db.stages.map (·.position)) = some M) :
    (get_order_services db orderId = [] → get_order_progress db orderId = some 0)
    ∧ (get_order_services db orderId ≠ [] →
        0 < M ∧
        ∃ p : ℚ, get_order_progress db orderId = some p
          ∧ p = pyRound2 (100 * ((((get_order_services db orderId).map
                (fun s => (lookupPos (get_stages db) s.stage).getD 1)).sum : Int) : ℚ)
                / ((get_order_services db orderId).length : ℚ) / (M : ℚ))
          ∧ 0 ≤ p ∧ p ≤ 100) := by
  have hM1 : 1 ≤ M := by
    obtain ⟨s, hs, hsp⟩ := List.mem_map.1 (listMax_mem hM)
    have := hpos s hs
    omega
  refine ⟨fun h => get_order_progress_empty h, fun hne => ⟨by omega, ?_⟩⟩
  have hMdv : listMax (dictVals (get_stages db)) = some M := by
    rw [listMax_dictVals_get_stages db, hM]
  have hM0 : M ≠ 0 := by omega
  have hprog := get_order_progress_eq db orderId hne hMdv hM0
  set svcs := get_order_services db orderId with hsvcs
  set resolved := fun s : Service => (lookupPos (get_stages db) s.stage).getD 1
    with hresolved
  have hres : ∀ x ∈ svcs.map resolved, 1 ≤ x ∧ x ≤ M := by
    intro x hx
    obtain ⟨s, hs, hsx⟩ := List.mem_map.1 hx
    subst hsx
    cases hl : lookupPos (get_stages db) s.stage with
    | none => simp [hresolved, hl]; omega
    | some p =>
        obtain ⟨t, ht, -, htp⟩ := lookupPos_mem hl
        have htmem : t ∈ db.stages :=
          (List.perm_insertionSort stageLE db.stages).mem_iff.1 ht
        have h1 : 1 ≤ p := htp ▸ hpos t htmem
        have h2 : p ≤ M := le_listMax (htp ▸ List.mem_map_of_mem (·.position) htmem) hM
        simp [hresolved, hl]
        omega
  have hlen : 0 < svcs.length := List.length_pos.2 hne
  set a : Int := (svcs.map resolved).sum with ha
  have hlensum : (svcs.map resolved).length = svcs.length := List.length_map _ _
  have hsum_ge : (svcs.length : Int) ≤ a := by
    have := List.card_nsmul_le_sum (svcs.map resolved) 1 (fun x hx => (hres x hx).1)
    rw [hlensum] at this
    simpa using this
  have hsum_le : a ≤ (svcs.length : Int) * M := by
    have := List.sum_le_card_nsmul (svcs.map resolved) M (fun x hx => (hres x hx).2)
    rw [hlensum] at this
    simpa using this
  have hbq : (0 : ℚ) < (svcs.length : ℚ) := by exact_mod_cast hlen
  have hcq : (0 : ℚ) < (M : ℚ) := by exact_mod_cast hM1
  have haq : (0 : ℚ) < (a : ℚ) := by
    have : (0 : Int) < a := by omega
    exact_mod_cast this
  have hsum_leq : (a : ℚ) ≤ (svcs.length : ℚ) * (M : ℚ) := by exact_mod_cast hsum_le
  have h0v : (0 : ℚ) ≤ (a : ℚ) / (svcs.length : ℚ) / (M : ℚ) * 100 := by
    apply mul_nonneg _ (by norm_num)
    exact div_nonneg (div_nonneg haq.le hbq.le) hcq.le
  have hv100 : (a : ℚ) / (svcs.length : ℚ) / (M : ℚ) * 100 ≤ 100 := by
    have h1 : (a : ℚ) / (svcs.length : ℚ) ≤ (M : ℚ) := by
      rw [div_le_iff₀ hbq]
      calc (a : ℚ) ≤ (svcs.length : ℚ) * (M : ℚ) := hsum_leq
        _ = (M : ℚ) * (svcs.length : ℚ) := by ring
    have h2 : (a : ℚ) / (svcs.length : ℚ) / (M : ℚ) ≤ 1 := by
      rw [div_le_one hcq]
      exact h1
    calc (a : ℚ) / (svcs.length : ℚ) / (M : ℚ) * 100 ≤ 1 * 100 := by
          exact mul_le_mul_of_nonneg_right h2 (by norm_num)
      _ = 100 := by norm_num
  refine ⟨progressValue a svcs.length M, hprog, ?_, ?_, ?_⟩
  · show pyRound2 ((a : ℚ) / (svcs.length : ℚ) / (M : ℚ) * 100)
        = pyRound2 (100 * (a : ℚ) / (svcs.length : ℚ) / (M : ℚ))
    congr 1
    ring
  · exact pyRound2_nonneg h0v
  · exact pyRound2_le_100 hv100

/-- C1 witness: the seeded registry with services at positions 1, 2, 3 of
max 3 gives progress round(100 * 2 / 3, 2) = 66.67, inside the bounds. -/
theorem C1_order_progress_witness :
    ∃ p : ℚ, get_order_progress dbSeed "o1" = some p
      ∧ 0 ≤ p ∧ p ≤ 100 ∧ p = 6667/100 := by
  obtain ⟨-, h2⟩ := C1_order_progress dbSeed "o1" 3 (by decide) (by decide)
  obtain ⟨-, p, hp, -, h0, h100⟩ := h2 (by decide)
  refine ⟨p, hp, h0, h100, ?_⟩
  have hp2 : get_order_progress dbSeed "o1" = some (progressValue 6 3 3) := rfl
  have : p = progressValue 6 3 3 := by
    rw [hp2] at hp
    exact (Option.some.inj hp).symm
  rw [this]
  norm_num [progressValue, pyRound2, roundHalfEven]

theorem get_order_progress_none_of_listMax_none {db : DB} {orderId : String}
    (hne : get_order_services db orderId ≠ [])
    (h : listMax (dictVals (get_stages db)) = none) :
    get_order_progress db orderId = none := by
  have hie : (get_order_services db orderId).isEmpty = false := by
    cases hx : (get_order_services db orderId).isEmpty
    · rfl
    · exact absurd (List.isEmpty_iff.1 hx) hne
  simp [get_order_progress, hie, h]

theorem get_order_progress_none_of_zero {db : DB} {orderId : String}
    (hne : get_order_services db orderId ≠ [])
    (h : listMax (dictVals (get_stages db)) = some 0) :
    get_order_progress db orderId = none := by
  have hie : (get_order_services db orderId).isEmpty = false := by
    cases hx : (get_order_services db orderId).isEmpty
    · rfl
    · exact absurd (List.isEmpty_iff.1 hx) hne
  simp [get_order_progress, hie, h]

/-- C3 counterexample: at dbDangling the only service of order o1 references
name "B", absent from the registry, so it resolves to the default position 1
and progress is 50; renaming stage s2 from "A" to "B" makes that dangling
reference resolve to position 2 and progress becomes 100 — the rename
changed a computed progress value, so it is not a pure relabeling. -/
theorem C3_counterexample :
    rename_stage dbDangling "s2" "B" = some dbDanglingRenamed
    ∧ get_order_progress dbDangling "o1" = some 50
    ∧ get_order_progress dbDanglingRenamed "o1" = some 100
    ∧ get_order_progress dbDanglingRenamed "o1" ≠ get_order_progress dbDangling "o1" := by
  have h1 : get_order_progress dbDangling "o1" = some (progressValue 1 1 2) := rfl
  have h2 : get_order_progress dbDanglingRenamed "o1" = some (progressValue 2 1 2) := rfl
  have v1 : progressValue 1 1 2 = 50 := by
    norm_num [progressValue, pyRound2, roundHalfEven]
  have v2 : progressValue 2 1 2 = 100 := by
    norm_num [progressValue, pyRound2, roundHalfEven]
  refine ⟨by decide, ?_, ?_, ?_⟩
  · rw [h1, v1]
  · rw [h2, v2]
  · rw [h1, h2, v1, v2]
    simp

/-- C3 amended: provided the registry's stage names are pairwise distinct,
its ids are pairwise distinct, the new name does not already occur as a
stage name, and no service currently references the new name, renaming a
stage is a pure relabeling: the rename succeeds, every service whose stage
was the old name afterwards reports the new name (all other services keep
their stage), and every order's computed progress is identical before and
after the rename. -/
theorem C3_rename_pure_relabel (db : DB) (stageId newName : String) (old : Stage)
    (hnames : (db.stages.map (·.name)).Nodup)
    (hids : (db.stages.map (·.id)).Nodup)
    (hold : old ∈ db.stages) (holdid : old.id = stageId)
    (hfresh : ∀ s ∈ db.stages, s.name ≠ newName)
    (hsvc : ∀ s ∈ db.services, s.stage ≠ newName) :
    ∃ db2, rename_stage db stageId newName = some db2
      ∧ db2.services.map (·.stage)
          = db.services.map (fun s => if s.stage = old.name then newName else s.stage)
      ∧ ∀ orderId, get_order_progress db2 orderId = get_order_progress db orderId := by
  have hdbnd : db.stages.Nodup := List.Nodup.of_map _ hids
  have hperm := List.perm_insertionSort stageLE db.stages
  have holdsort : old ∈ get_stages db := hperm.mem_iff.2 hold
  have hfilterall : ∀ x ∈ (get_stages db).filter (fun s => s.id == stageId), x = old := by
    intro x hx
    obtain ⟨hx1, hx2⟩ := List.mem_filter.1 hx
    have hxid : x.id = stageId := by simpa using hx2
    exact List.inj_on_of_nodup_map hids (hperm.mem_iff.1 hx1) hold (hxid.trans holdid.symm)
  have hhead : ((get_stages db).filter (fun s => s.id == stageId)).head? = some old := by
    have holdfilter : old ∈ (get_stages db).filter (fun s => s.id == stageId) :=
      List.mem_filter.2 ⟨holdsort, by simp [holdid]⟩
    cases hf : (get_stages db).filter (fun s => s.id == stageId) with
    | nil => rw [hf] at holdfilter; cases holdfilter
    | cons x xs =>
        have hxo : x = old := hfilterall x (hf ▸ List.mem_cons_self x xs)
        simp [hxo]
  have hren : rename_stage db stageId newName
      = some { db with
          stages := db.stages.map (renameStageRow stageId newName),
          services := db.services.map (renameServiceRow old.name newName) } := by
    simp only [rename_stage, hhead]
  refine ⟨_, hren, ?_, ?_⟩
  · rw [List.map_map]
    apply List.map_congr_left
    intro s hs
    by_cases h : s.stage = old.name
    · simp [renameServiceRow, Function.comp, h]
    · simp [renameServiceRow, Function.comp, h]
  · intro orderId
    -- abbreviations for the renamed store
    have hsvc2 : ∀ oid : String,
        (db.services.map (renameServiceRow old.name newName)).filter
            (fun s => s.orderId == oid)
          = (db.services.filter (fun s => s.orderId == oid)).map
              (renameServiceRow old.name newName) := by
      intro oid
      rw [List.filter_map]
      congr 1
      apply List.filter_congr
      intro s hs
      by_cases h : s.stage == old.name
      · simp [renameServiceRow, Function.comp, h]
      · simp [renameServiceRow, Function.comp, h]
    -- the positions of the renamed registry are the original positions
    have hposmap : ((db.stages.map (renameStageRow stageId newName)).map (·.position))
        = db.stages.map (·.position) := by
      rw [List.map_map]
      apply List.map_congr_left
      intro s hs
      by_cases h : s.id == stageId
      · simp [renameStageRow, Function.comp, h]
      · simp [renameStageRow, Function.comp, h]
    have hperm2 := List.perm_insertionSort stageLE
      (db.stages.map (renameStageRow stageId newName))
    -- name sets: nodup before and after, in the sorted registries
    have hnamesSorted : ((get_stages db).map (·.name)).Nodup :=
      ((hperm.map (·.name)).symm).nodup hnames
    have hnames2 : ((db.stages.map (renameStageRow stageId newName)).map (·.name)).Nodup := by
      rw [List.map_map]
      apply List.Nodup.map_on ?_ hdbnd
      intro x hx y hy hxy
      simp only [Function.comp] at hxy
      by_cases hxid : x.id = stageId <;> by_cases hyid : y.id = stageId
      · exact List.inj_on_of_nodup_map hids hx hy (hxid.trans hyid.symm)
      · exfalso
        simp [renameStageRow, hxid, hyid] at hxy
        exact hfresh y hy hxy.symm
      · exfalso
        simp [renameStageRow, hxid, hyid] at hxy
        exact hfresh x hx hxy
      · simp [renameStageRow, hxid, hyid] at hxy
        exact List.inj_on_of_nodup_map hnames hx hy hxy
    have hnames2Sorted :
        ((get_stages { db with
            stages := db.stages.map (renameStageRow stageId newName),
            services := db.services.map (renameServiceRow old.name newName) }).map
          (·.name)).Nodup :=
      ((hperm2.map (·.name)).symm).nodup hnames2
    -- maxima agree
    have hmax2 : listMax (dictVals (get_stages { db with
            stages := db.stages.map (renameStageRow stageId newName),
            services := db.services.map (renameServiceRow old.name newName) }))
        = listMax (dictVals (get_stages db)) := by
      rw [listMax_dictVals_get_stages, listMax_dictVals_get_stages]
      show listMax ((db.stages.map (renameStageRow stageId newName)).map (·.position)) = _
      rw [hposmap]
    -- resolution is unchanged for any stage name other than the new one
    have hkey : ∀ m : String, m ≠ newName →
        (lookupPos (get_stages { db with
              stages := db.stages.map (renameStageRow stageId newName),
              services := db.services.map (renameServiceRow old.name newName) })
            (if m = old.name then newName else m)).getD 1
          = (lookupPos (get_stages db) m).getD 1 := by
      intro m hm
      have hrsold : renameStageRow stageId newName old = { old with name := newName } := by
        simp [renameStageRow, holdid]
      by_cases hcase : m = old.name
      · rw [if_pos hcase]
        have hmem2 : renameStageRow stageId newName old ∈ get_stages { db with
            stages := db.stages.map (renameStageRow stageId newName),
            services := db.services.map (renameServiceRow old.name newName) } :=
          hperm2.mem_iff.2 (List.mem_map_of_mem _ hold)
        have h1 := lookupPos_nodup hnames2Sorted hmem2 (by rw [hrsold])
        have h2 : lookupPos (get_stages db) m = some old.position := by
          rw [hcase]
          exact lookupPos_nodup hnamesSorted holdsort rfl
        rw [h1, h2, hrsold]
      · rw [if_neg hcase]
        by_cases hex : ∃ t ∈ db.stages, t.name = m
        · obtain ⟨t, ht, htm⟩ := hex
          have htid : ¬(t.id = stageId) := by
            intro hco
            have hteq : t = old :=
              List.inj_on_of_nodup_map hids ht hold (hco.trans holdid.symm)
            apply hcase
            rw [← htm, hteq]
          have hrst : renameStageRow stageId newName t = t := by
            simp [renameStageRow, htid]
          have hmem2 : renameStageRow stageId newName t ∈ get_stages { db with
              stages := db.stages.map (renameStageRow stageId newName),
              services := db.services.map (renameServiceRow old.name newName) } :=
            hperm2.mem_iff.2 (List.mem_map_of_mem _ ht)
          rw [hrst] at hmem2
          have h1 := lookupPos_nodup hnames2Sorted hmem2 htm
          have h2 := lookupPos_nodup hnamesSorted (hperm.mem_iff.2 ht) htm
          rw [h1, h2]
        · push_neg at hex
          have hnone1 : lookupPos (get_stages db) m = none :=
            (lookupPos_eq_none_iff _ _).2 (fun s hs => hex s (hperm.mem_iff.1 hs))
          have hnone2 : lookupPos (get_stages { db with
              stages := db.stages.map (renameStageRow stageId newName),
              services := db.services.map (renameServiceRow old.name newName) }) m
              = none := by
            apply (lookupPos_eq_none_iff _ _).2
            intro s hs
            obtain ⟨u, hu, hus⟩ := List.mem_map.1 (hperm2.mem_iff.1 hs)
            subst hus
            by_cases huid : u.id == stageId
            · simp only [renameStageRow, if_pos huid]
              intro hco
              exact hm (by simpa using hco.symm)
            · simp only [renameStageRow, if_neg huid]
              exact hex u hu
          rw [hnone1, hnone2]
    -- assemble
    by_cases hempty : get_order_services db orderId = []
    · have hempty2 : get_order_services { db with
          stages := db.stages.map (renameStageRow stageId newName),
          services := db.services.map (renameServiceRow old.name newName) } orderId = [] := by
        show (db.services.map (renameServiceRow old.name newName)).filter
            (fun s => s.orderId == orderId) = []
        rw [hsvc2 orderId]
        show (get_order_services db orderId).map (renameServiceRow old.name newName) = []
        rw [hempty]
        rfl
      rw [get_order_progress_empty hempty, get_order_progress_empty hempty2]
    · have hne2 : get_order_services { db with
          stages := db.stages.map (renameStageRow stageId newName),
          services := db.services.map (renameServiceRow old.name newName) } orderId ≠ [] := by
        show (db.services.map (renameServiceRow old.name newName)).filter
            (fun s => s.orderId == orderId) ≠ []
        rw [hsvc2 orderId]
        simp only [ne_eq, List.map_eq_nil_iff]
        exact hempty
      cases hMx : listMax (dictVals (get_stages db)) with
      | none =>
          rw [get_order_progress_none_of_listMax_none hempty hMx,
            get_order_progress_none_of_listMax_none hne2 (hmax2.trans hMx)]
      | some M =>
          by_cases hM0 : M = 0
          · subst hM0
            rw [get_order_progress_none_of_zero hempty hMx,
              get_order_progress_none_of_zero hne2 (hmax2.trans hMx)]
          · rw [get_order_progress_eq db orderId hempty hMx hM0,
              get_order_progress_eq _ orderId hne2 (hmax2.trans hMx) hM0]
            have hlen : (get_order_services { db with
                stages := db.stages.map (renameStageRow stageId newName),
                services := db.services.map (renameServiceRow old.name newName) }
                  orderId).length
                = (get_order_services db orderId).length := by
              show ((db.services.map (renameServiceRow old.name newName)).filter
                  (fun s => s.orderId == orderId)).length = _
              rw [hsvc2 orderId]
              exact List.length_map _ _
            have hsum : ((get_order_services { db with
                stages := db.stages.map (renameStageRow stageId newName),
                services := db.services.map (renameServiceRow old.name newName) }
                  orderId).map
                (fun s => (lookupPos (get_stages { db with
                    stages := db.stages.map (renameStageRow stageId newName),
                    services := db.services.map (renameServiceRow old.name newName) })
                  s.stage).getD 1)).sum
                = ((get_order_services db orderId).map
                    (fun s => (lookupPos (get_stages db) s.stage).getD 1)).sum := by
              have hrw : (get_order_services { db with
                  stages := db.stages.map (renameStageRow stageId newName),
                  services := db.services.map (renameServiceRow old.name newName) }
                    orderId)
                  = (get_order_services db orderId).map (renameServiceRow old.name newName) :=
                hsvc2 orderId
              rw [hrw, List.map_map]
              congr 1
              apply List.map_congr_left
              intro s hs
              have hsdb : s ∈ db.services := (List.mem_filter.1 hs).1
              have hsnn : s.stage ≠ newName := hsvc s hsdb
              have hstage : (renameServiceRow old.name newName s).stage
                  = if s.stage = old.name then newName else s.stage := by
                by_cases h : s.stage = old.name
                · simp [renameServiceRow, h]
                · simp [renameServiceRow, h]
              show (lookupPos _ ((renameServiceRow old.name newName s).stage)).getD 1 = _
              rw [hstage]
              exact hkey s.stage hsnn
            rw [hlen, hsum]

/-- C3 amended witness: renaming "To Do" (id st1) to "Backlog" on the seeded
store relabels the one affected service and leaves every progress value
unchanged. -/
theorem C3_rename_pure_relabel_witness :
    ∃ db2, rename_stage dbSeed "st1" "Backlog" = some db2
      ∧ db2.services.map (·.stage)
          = dbSeed.services.map (fun s => if s.stage = "To Do" then "Backlog" else s.stage)
      ∧ ∀ orderId, get_order_progress db2 orderId = get_order_progress dbSeed orderId := by
  exact C3_rename_pure_relabel dbSeed "st1" "Backlog" ⟨"st1", "To Do", 1⟩
    (by decide) (by decide) (by decide) rfl (by decide) (by decide)
